import Mathlib

/-!
Verification development for the pretext-task sampling subsystem of the
`neurocode` repository (SimCLR-style samplers over windowed MEG recordings).

The embedding below translates the Python sources
`neurocode/samplers/signal_simclr.py`, `neurocode/samplers/wavelet_simclr.py`
and `neurocode/datasets/slemeg.py` into executable Lean definitions.

Tensors (`numpy` arrays / `torch` tensors) are modelled as the nested
inductive `Nd α`: a tensor is either a scalar entry or an ordered list of
subtensors.  `torch.unsqueeze` and `torch.cat` are given their documented
shape semantics on this representation.

Stateful library code is modelled by explicit state passing:
 - the hidden global pseudo-random source used by the augmentation
   transforms is a `Nat` state threaded through every transform call
   (transforms have type `Nat → Nd Int → Nd Int × Nat`);
 - the encoder's mutable `_return_features` / eval-mode flags are a record
   threaded through feature extraction;
 - fallible Python code (exceptions, assertions) returns `Except`/`Option`.

Parts of the repository that are not part of the sources being verified
(the `PretextSampler` base class, the signal transform implementations in
`neurocode.datautil.transforms`, and external libraries: torchvision, scipy)
are modelled from the specification's description of their contracts; each
such definition says so in its doc comment.
-/

/-- Nested tensor: a scalar entry or an ordered list of subtensors.
Models `numpy.ndarray` / `torch.Tensor` values. -/
inductive Nd (α : Type) where
  | item : α → Nd α
  | node : List (Nd α) → Nd α

namespace Nd

-- `t.hasShape s` : the tensor `t` is a well-formed tensor of shape `s`
-- (every axis rectangular). `ndAllShape xs s` : every tensor in `xs` has
-- shape `s`.
mutual

def hasShape : Nd α → List Nat → Bool
  | .item _, [] => true
  | .item _, _ :: _ => false
  | .node _, [] => false
  | .node xs, n :: s => (xs.length == n) && ndAllShape xs s

def ndAllShape : List (Nd α) → List Nat → Bool
  | [], _ => true
  | x :: xs, s => hasShape x s && ndAllShape xs s

end

/-- `torch.Tensor.unsqueeze(0)`: insert a leading axis of extent 1. -/
def unsqueeze0 (x : Nd α) : Nd α := .node [x]

/-- `torch.Tensor.unsqueeze(1)`: insert an axis of extent 1 at position 1.
Fails on a rank-0 tensor. -/
def unsqueeze1 : Nd α → Option (Nd α)
  | .item _ => none
  | .node xs => some (.node (xs.map (fun x => .node [x])))

/-- The list of subtensors along axis 0; fails on a rank-0 tensor. -/
def children? : Nd α → Option (List (Nd α))
  | .item _ => none
  | .node xs => some xs

/-- The leading-axis subtensor lists of every tensor in `ts`; fails if any
member has rank 0. -/
def childrenAll : List (Nd α) → Option (List (List (Nd α)))
  | [] => some []
  | t :: ts =>
    match t.children?, childrenAll ts with
    | some c, some cs => some (c :: cs)
    | _, _ => none

/-- `torch.cat(ts)` (along dim 0): concatenate along the leading axis.
Fails on an empty list (as `torch.cat` does) or on rank-0 members. -/
def cat0 (ts : List (Nd α)) : Option (Nd α) :=
  match ts with
  | [] => none
  | _ :: _ => (childrenAll ts).map (fun ls => .node ls.flatten)

end Nd

theorem ndAllShape_append {α : Type} (xs ys : List (Nd α)) (s : List Nat) :
    Nd.ndAllShape (xs ++ ys) s = (Nd.ndAllShape xs s && Nd.ndAllShape ys s) := by
  induction xs with
  | nil => simp [Nd.ndAllShape]
  | cons x xs ih => simp [Nd.ndAllShape, ih, Bool.and_assoc]

theorem hasShape_unsqueeze0 {α : Type} (x : Nd α) (s : List Nat)
    (h : x.hasShape s) : (Nd.unsqueeze0 x).hasShape (1 :: s) := by
  simp [Nd.unsqueeze0, Nd.hasShape, Nd.ndAllShape, h]

theorem childrenAll_of_shapes {α : Type} (ts : List (Nd α)) (s : List Nat)
    (h : ∀ t ∈ ts, t.hasShape (1 :: s)) :
    ∃ ls, Nd.childrenAll ts = some ls ∧
      ls.flatten.length = ts.length ∧ Nd.ndAllShape ls.flatten s := by
  induction ts with
    | nil => exact ⟨[], rfl, rfl, rfl⟩
    | cons t ts ih =>
      have ht := h t (List.mem_cons_self t ts)
      obtain ⟨c, hc, hcs⟩ : ∃ c, t = .node [c] ∧ Nd.hasShape c s := by
        cases t with
        | item a => simp [Nd.hasShape] at ht
        | node xs =>
          simp [Nd.hasShape] at ht
          obtain ⟨hlen, hall⟩ := ht
          match xs, hlen with
          | [c], _ =>
            refine ⟨c, rfl, ?_⟩
            simpa [Nd.ndAllShape] using hall
      obtain ⟨ls, hls, hlsLen, hlsSh⟩ := ih (fun u hu => h u (List.mem_cons_of_mem _ hu))
      refine ⟨[c] :: ls, ?_, ?_, ?_⟩
      · simp [hc, Nd.childrenAll, Nd.children?, hls]
      · simp [hlsLen]
      · rw [List.flatten_cons, ndAllShape_append]
        simp [Nd.ndAllShape, hcs, hlsSh]

theorem cat0_shape {α : Type} (ts : List (Nd α)) (s : List Nat)
    (hne : ts ≠ []) (h : ∀ t ∈ ts, t.hasShape (1 :: s)) :
    ∃ y, Nd.cat0 ts = some y ∧ y.hasShape (ts.length :: s) := by
  obtain ⟨ls, hls, hlen, hsh⟩ := childrenAll_of_shapes ts s h
  refine ⟨.node ls.flatten, ?_, ?_⟩
  · cases ts with
    | nil => exact absurd rfl hne
    | cons t ts => simp [Nd.cat0, hls]
  · simp [Nd.hasShape, hlen, hsh]

theorem unsqueeze1_shape {α : Type} (x : Nd α) (b : Nat) (s : List Nat)
    (h : x.hasShape (b :: s)) :
    ∃ y, Nd.unsqueeze1 x = some y ∧ y.hasShape (b :: 1 :: s) := by
  cases x with
  | item a => simp [Nd.hasShape] at h
  | node xs =>
    refine ⟨.node (xs.map (fun x => .node [x])), rfl, ?_⟩
    simp [Nd.hasShape] at h
    obtain ⟨hlen, hall⟩ := h
    simp [Nd.hasShape, hlen]
    clear hlen
    induction xs with
    | nil => simp [Nd.ndAllShape]
    | cons x xs ih =>
      simp [Nd.ndAllShape] at hall ⊢
      simp [Nd.hasShape, Nd.ndAllShape, hall.1]
      exact ih hall.2

/-! ### Hidden global pseudo-random source

The augmentation transforms (torchvision's random image transforms and the
signal transforms in `neurocode.datautil.transforms`) draw from an implicit
global random source (spec §9, design notes).  We model that source as a
`Nat` state transformed by a linear congruential step, threaded explicitly
through every transform call. -/

/-- One step of the modelled global pseudo-random source (a standard LCG). -/
def lcg (s : Nat) : Nat := (s * 1103515245 + 12345) % 2147483648

/-- A signal/image transform: consumes the hidden global RNG state and an
input tensor, returns the transformed tensor and the advanced RNG state. -/
abbrev SigTransform : Type := Nat → Nd Int → Nd Int × Nat

/-- Rank-1 tensor of length `c` with entries given by `f`. -/
def mkRow (c : Nat) (f : Nat → Int) : Nd Int :=
  .node ((List.range c).map (fun j => .item (f j)))

/-- Rank-2 tensor (matrix) of shape `r × c` with entries given by `f`. -/
def mkMat (r c : Nat) (f : Nat → Nat → Int) : Nd Int :=
  .node ((List.range r).map (fun i => mkRow c (fun j => f i j)))

/-- Leading-axis extent (`t.shape[0]`); 0 for a rank-0 tensor. -/
def Nd.dim0 : Nd α → Nat
  | .item _ => 0
  | .node xs => xs.length

/-- Index along the leading axis; `none` when out of bounds / rank 0. -/
def Nd.at0 : Nd α → Nat → Option (Nd α)
  | .item _, _ => none
  | .node xs, j => xs[j]?

/-- Entry of a rank-1 tensor (0 when out of bounds). -/
def ndEntry1 (w : Nd Int) (j : Nat) : Int :=
  match w.at0 j with
  | some (.item v) => v
  | _ => 0

/-- Entry of a rank-2 tensor (0 when out of bounds). -/
def ndEntry2 (m : Nd Int) (i j : Nat) : Int :=
  match m.at0 i with
  | some r => ndEntry1 r j
  | none => 0

theorem mkRow_shape (c : Nat) (f : Nat → Int) : (mkRow c f).hasShape [c] := by
  simp [mkRow, Nd.hasShape]
  induction (List.range c) with
  | nil => simp [Nd.ndAllShape]
  | cons j js ih => simpa [Nd.ndAllShape, Nd.hasShape] using ih

theorem mkMat_shape (r c : Nat) (f : Nat → Nat → Int) :
    (mkMat r c f).hasShape [r, c] := by
  simp [mkMat, Nd.hasShape]
  induction (List.range r) with
  | nil => simp [Nd.ndAllShape]
  | cons i is ih => simpa [Nd.ndAllShape, mkRow_shape] using ih

/-! ### `signal_simclr.py`: ContrastiveViewGenerator -/

/-- `ContrastiveViewGenerator` of `signal_simclr.py`: a collection of
transforms plus the number of views to generate. -/
structure ContrastiveViewGenerator where
  transforms : List SigTransform
  n_views : Nat

/-- The body of `ContrastiveViewGenerator.__call__`:
`[torch.Tensor(self.transforms[t](x)) for t in range(self.n_views)]`,
evaluated left to right over the index list, each transform call consuming
the hidden global RNG state.  `none` models the `IndexError` raised when
`n_views` exceeds the number of transforms. -/
def cvgCallAux (ts : List SigTransform) (x : Nd Int) :
    List Nat → Nat → Option (List (Nd Int) × Nat)
  | [], g => some ([], g)
  | t :: rest, g =>
    match ts[t]? with
    | none => none
    | some f =>
      let vg := f g x
      match cvgCallAux ts x rest vg.2 with
      | none => none
      | some (vs, g2) => some (vg.1 :: vs, g2)

/-- `ContrastiveViewGenerator.__call__` (signal variant). -/
def ContrastiveViewGenerator.call (G : ContrastiveViewGenerator) (x : Nd Int)
    (g : Nat) : Option (List (Nd Int) × Nat) :=
  cvgCallAux G.transforms x (List.range G.n_views) g

/-! ### `wavelet_simclr.py`: ContrastiveViewGenerator (scalogram variant)

In `wavelet_simclr.py` the generator holds a single callable (`transforms`)
and applies it once per view: `[self.transforms(x) for _ in range(n_views)]`.
`WaveletSimCLR._setup` instantiates that callable with
`torchvision.transforms.Compose([...])` over the four configured image
transforms, so each view is the sequential composition of the whole list. -/

/-- `torchvision.transforms.Compose`: apply the transforms of the list in
order, first element first, threading the hidden global RNG state. -/
def composeT (fs : List SigTransform) : SigTransform := fun g x =>
  match fs with
  | [] => (x, g)
  | f :: rest => let yg := f g x; composeT rest yg.2 yg.1

/-- `ContrastiveViewGenerator.__call__` of `wavelet_simclr.py`:
`[self.transforms(x) for _ in range(self.n_views)]`, each call consuming
the hidden global RNG state. -/
def wcvgCall (t : SigTransform) : Nat → Nd Int → Nat → List (Nd Int) × Nat
  | 0, _, g => ([], g)
  | n + 1, x, g =>
    let vg := t g x
    let rest := wcvgCall t n x vg.2
    (vg.1 :: rest.1, rest.2)

/-! ### Spec-modelled base-sampler primitives

`neurocode/samplers/base.py` (the `PretextSampler` base class) is not among
the given sources; only its subclasses are.  The primitives below are
modelled from the spec. -/

/-- Modelled from the spec: `PretextSampler._sample_recording` (§4.2
"uniformly selects a recording index"); `base.py` is not among the given
sources.  Uniform selection is modelled as the RNG value reduced modulo the
number of recordings. -/
def sample_recording (nRecordings : Nat) (g : Nat) : Nat × Nat :=
  (g % nRecordings, lcg g)

/-- Modelled from the spec: `PretextSampler._sample_window` (§4.2
"uniformly selects a window index within the recording"); `base.py` is not
among the given sources. -/
def sample_window (nWindows : Nat) (g : Nat) : Nat × Nat :=
  (g % nWindows, lcg g)

/-! ### Spec-modelled signal transforms

`neurocode/datautil/transforms.py` is not among the given sources; the two
transforms instantiated by `SignalSampler._parameters` are modelled from the
spec (§4.6): crop-and-resize to a fixed output length, and random
temporal-block permutation, both drawing from the implicit global random
source (§9). -/

/-- Modelled from the spec: `CropResizeTransform(n_partitions)` — crops a
random temporal block of one `n_partitions`-th of the window and resizes it
back to the original length, per channel; output keeps the input's
(channels × time) shape. -/
def CropResizeTransform (n_partitions : Nat) : SigTransform := fun g x =>
  match x with
  | .node rows =>
    let T := match rows.head? with
      | some r => r.dim0
      | none => 0
    let plen := T / max 1 n_partitions
    let start := g % (T - plen + 1)
    (.node (rows.map (fun r =>
      mkRow r.dim0 (fun j => ndEntry1 r (start + j * plen / max 1 T)))), lcg g)
  | t => (t, lcg g)

/-- Modelled from the spec: `PermutationTransform(n_partitions)` — random
temporal-block permutation, modelled as rotating each channel's samples by
a random number of blocks; output keeps the input's shape. -/
def PermutationTransform (n_partitions : Nat) : SigTransform := fun g x =>
  match x with
  | .node rows =>
    let k := g % max 1 n_partitions
    (.node (rows.map (fun r =>
      match r with
      | .node es => .node (es.rotate k)
      | e => e)), lcg g)
  | t => (t, lcg g)

/-! ### `SignalSampler` -/

/-- The keyword-argument dictionary a `SignalSampler` is constructed with.
The four recognized keys are modelled as optional fields (absent key =
`none`); every unrecognized key goes into `extra`, which
`SignalSampler._parameters` absorbs via `**kwargs`. -/
structure Kwargs where
  n_channels : Option Nat
  n_views : Option Nat
  crop_partitions : Option Nat
  permutation_partitions : Option Nat
  extra : List (String × Nat)

/-- The configuration state `SignalSampler._parameters` leaves on the
sampler instance. -/
structure SignalConfig where
  n_channels : Nat
  n_views : Nat
  crop_partitions : Nat
  permutation_partitions : Nat
  transforms : List SigTransform

/-- `SignalSampler._parameters(n_channels, n_views=2, crop_partitions=5,
permutation_partitions=10, **kwargs)`, invoked by the base class at
construction time (spec §4.2/§6; `base.py` is not among the given sources,
the construction-time call is modelled from the spec).  A missing
`n_channels` raises `TypeError` at construction; unrecognized keys are
absorbed by `**kwargs`; recognized optional keys default. -/
def signalParameters (k : Kwargs) : Except String SignalConfig :=
  match k.n_channels with
  | none => .error "TypeError: _parameters() missing required argument n_channels"
  | some c =>
    let nv := match k.n_views with
      | some v => v
      | none => 2
    let cp := match k.crop_partitions with
      | some v => v
      | none => 5
    let pp := match k.permutation_partitions with
      | some v => v
      | none => 10
    .ok { n_channels := c, n_views := nv, crop_partitions := cp,
          permutation_partitions := pp,
          transforms := [CropResizeTransform cp, PermutationTransform pp] }

/-- A constructed `SignalSampler`: the windowed dataset (each window item is
the tuple `(window, target, crop_inds)` produced by the external windower,
accessed as `[0]` in the source), per-recording metadata labels, batch size
and the configuration produced by `_parameters`. -/
structure SignalSampler where
  data : List (List (Nd Int × Int × Int))
  labels : List (List Int)
  batch_size : Nat
  cfg : SignalConfig

/-- The loop body of `SignalSampler._sample_pair`: for each of `batch_size`
iterations, sample a recording and a window (spec-modelled base primitives),
take the window tensor (`self.data[reco_idx][wind_idx][0]`), produce the
views `T1, T2 = self.transformer(x)` (failing unless exactly two views are
generated, as the Python tuple unpacking does), and collect
`T1.unsqueeze(0)` / `T2.unsqueeze(0)` in order. -/
def samplePairLoop (S : SignalSampler) :
    Nat → Nat → Option (List (Nd Int) × List (Nd Int) × Nat)
  | 0, g => some ([], [], g)
  | b + 1, g =>
    let rg := sample_recording S.data.length g
    match S.data[rg.1]? with
    | none => none
    | some windows =>
      let wg := sample_window windows.length rg.2
      match windows[wg.1]? with
      | none => none
      | some item =>
        let x := item.1
        match ContrastiveViewGenerator.call
            ⟨S.cfg.transforms, S.cfg.n_views⟩ x wg.2 with
        | some ([t1, t2], g3) =>
          match samplePairLoop S b g3 with
          | some (as', ss', g4) =>
            some (Nd.unsqueeze0 t1 :: as', Nd.unsqueeze0 t2 :: ss', g4)
          | none => none
        | _ => none

/-- `SignalSampler._sample_pair`: run the batch loop, then
`ANCHORS = torch.cat(batch_anchors).unsqueeze(1)` and likewise for
`SAMPLES`; returns the pair `(ANCHORS, SAMPLES)` (and the final RNG
state). -/
def samplePair (S : SignalSampler) (g : Nat) :
    Option (Nd Int × Nd Int × Nat) :=
  match samplePairLoop S S.batch_size g with
  | none => none
  | some (as', ss', g2) =>
    match (Nd.cat0 as').bind Nd.unsqueeze1, (Nd.cat0 ss').bind Nd.unsqueeze1 with
    | some A, some Sm => some (A, Sm, g2)
    | _, _ => none

/-! ### Feature extraction (`SignalSampler._extract_features`) -/

/-- The mutable flags on the externally supplied encoder:
`_return_features` and the eval/train mode toggled by `model.eval()`. -/
structure EncoderState where
  return_features : Bool
  evalMode : Bool

/-- The window enumeration of `_extract_features`:
`for recording in range(len(self.data)): for window in
range(len(self.data[recording]))` with the vacuous stride `window % 1 == 0`;
yields `(recording index, window tensor)` pairs in enumeration order. -/
def enumWindows (data : List (List (Nd Int × Int × Int))) :
    List (Nat × Nd Int) :=
  data.enum.flatMap (fun p => p.2.map (fun item => (p.1, item.1)))

/-- The collection loop of `_extract_features`: for each enumerated window,
run the encoder (`feature = model(window.unsqueeze(0))`, modelled as the
fallible function `forward` on the window tensor), append the feature to `X`
and execute `Y.append(*self.labels[recording])` — star-unpacking into
`append` raises `TypeError` unless the label tuple has exactly one element.
Any raise aborts the whole extraction. -/
def extractLoop (forward : Nd Int → Except String (List Int))
    (labels : List (List Int)) :
    List (Nat × Nd Int) → Except String (List (List Int) × List Int)
  | [] => .ok ([], [])
  | (r, w) :: rest =>
    match forward w with
    | .error e => .error e
    | .ok feat =>
      match labels[r]? with
      | none => .error "IndexError: list index out of range"
      | some lab =>
        match lab with
        | [y] =>
          match extractLoop forward labels rest with
          | .error e => .error e
          | .ok (X, Y) => .ok (feat :: X, y :: Y)
        | _ => .error "TypeError: append() takes exactly one argument"

/-- `SignalSampler._extract_features(model, device)`: sets `model.eval()`
and `model._return_features = True`, runs the collection loop, concatenates
`X` (`np.concatenate` raises on an empty list), and only then executes
`model._return_features = False`.  Returns the Python result (or the
exception) together with the encoder-flag state at exit; the
`_return_features = False` line is only reached on the normal path, exactly
as in the source (no `try`/`finally`). -/
def extractFeatures (forward : Nd Int → Except String (List Int))
    (S : SignalSampler) (_m : EncoderState) :
    Except String (List (List Int) × List Int) × EncoderState :=
  let mIn : EncoderState := { return_features := true, evalMode := true }
  match extractLoop forward S.labels (enumWindows S.data) with
  | .error e => (.error e, mIn)
  | .ok (X, Y) =>
    if X.length = 0 then
      (.error "ValueError: need at least one array to concatenate", mIn)
    else
      (.ok (X, Y), { mIn with return_features := false })

/-! ### `wavelet_simclr.py`: image pipeline

Images (scalograms) are modelled as rank-2 tensors; `ToTensor`'s numeric
scaling and singleton channel axis are abstracted away (the external
torchvision collaborator is modelled by its documented size contracts). -/

-- Entry-wise map over a tensor.
mutual

def ndMap (f : Int → Int) : Nd Int → Nd Int
  | .item a => .item (f a)
  | .node xs => .node (ndMapList f xs)

def ndMapList (f : Int → Int) : List (Nd Int) → List (Nd Int)
  | [] => []
  | x :: xs => ndMap f x :: ndMapList f xs

end

/-- Extent of axis 1 (the length of the first row); 0 when rank < 2. -/
def Nd.dim1 : Nd α → Nat
  | .node (r :: _) => r.dim0
  | _ => 0

/-- `torchvision.transforms.Resize(shape)` modelled as nearest-neighbour
sampling: the output always has the target `h × w` shape. -/
def resizeTo (h w : Nat) (img : Nd Int) : Nd Int :=
  mkMat h w (fun i j =>
    ndEntry2 img (i * img.dim0 / max 1 h) (j * img.dim1 / max 1 w))

/-- The `ch × cw` subimage of `img` at offset `(oi, oj)`. -/
def cropRegion (oi oj ch cw : Nat) (img : Nd Int) : Nd Int :=
  mkMat ch cw (fun i j => ndEntry2 img (oi + i) (oj + j))

/-- `torchvision.transforms.RandomResizedCrop(shape, scale=(.5, .95))`:
draws a crop extent between half and full size and a random offset from the
global RNG, crops, and resizes the crop to `shape`. -/
def randomResizedCropT (shape : Nat × Nat) : SigTransform := fun g img =>
  let h := img.dim0
  let w := img.dim1
  let ch := h / 2 + g % (h / 2 + 1)
  let g1 := lcg g
  let cw := w / 2 + g1 % (w / 2 + 1)
  let g2 := lcg g1
  let oi := g2 % (h - ch + 1)
  let g3 := lcg g2
  let oj := g3 % (w - cw + 1)
  (resizeTo shape.1 shape.2 (cropRegion oi oj ch cw img), lcg g3)

/-- `torchvision.transforms.RandomInvert(p=.25)`: with probability 1/4
(drawn from the global RNG) invert every pixel value. -/
def randomInvertT : SigTransform := fun g img =>
  (if g % 4 = 0 then ndMap (fun v => 255 - v) img else img, lcg g)

/-- Mirror a rank-2 image along the horizontal axis (reverse each row). -/
def hflipMat : Nd Int → Nd Int
  | .node rows => .node (rows.map (fun r =>
      match r with
      | .node es => Nd.node es.reverse
      | e => e))
  | t => t

/-- Mirror a rank-2 image along the vertical axis (reverse the row order). -/
def vflipMat : Nd Int → Nd Int
  | .node rows => .node rows.reverse
  | t => t

/-- `torchvision.transforms.RandomHorizontalFlip(p=.3)`. -/
def randomHorizontalFlipT : SigTransform := fun g img =>
  (if g % 10 < 3 then hflipMat img else img, lcg g)

/-- `torchvision.transforms.RandomVerticalFlip(p=.3)`. -/
def randomVerticalFlipT : SigTransform := fun g img =>
  (if g % 10 < 3 then vflipMat img else img, lcg g)

/-- The ordered transform list of `WaveletSimCLR._setup`'s `preprocess`
pipeline: `[RandomResizedCrop(shape, scale=(.5,.95)), RandomInvert(p=.25),
RandomHorizontalFlip(p=.3), RandomVerticalFlip(p=.3)]`. -/
def wPreprocessList (shape : Nat × Nat) : List SigTransform :=
  [randomResizedCropT shape, randomInvertT, randomHorizontalFlipT,
   randomVerticalFlipT]

/-- `self.preprocess = transforms.Compose([...])` of
`WaveletSimCLR._setup`. -/
def wPreprocess (shape : Nat × Nat) : SigTransform :=
  composeT (wPreprocessList shape)

/-- `torch.Tensor.squeeze(0)`: drop the leading axis when its extent is 1. -/
def Nd.squeeze0 : Nd α → Nd α
  | .node [x] => x
  | t => t

/-- Modelled from the external scipy collaborator's contract:
`scipy.signal.cwt(window, ricker, np.arange(1, widths+1))` returns a matrix
of shape `(widths, len(window))`; the wavelet response entries are modelled
as a scale-weighted stand-in. -/
def cwtMat (widths : Nat) (w : Nd Int) : Nd Int :=
  mkMat widths w.dim0 (fun i j => (Int.ofNat i + 1) * ndEntry1 w j)

/-- The `resizer = transforms.Compose([ToTensor(), Resize(self.shape)])` of
`WaveletSimCLR._remake_dataset` (`ToTensor`'s scaling/channel axis
abstracted; see the section comment). -/
def resizerT (shape : Nat × Nat) (m : Nd Int) : Nd Int :=
  resizeTo shape.1 shape.2 m

/-! ### `WaveletSimCLR` -/

/-- The `self.data` attribute of `WaveletSimCLR`: at construction it is the
recording → window-tuple mapping handed in by the loader (an ordered
key/value list, dict iteration order); after `_remake_dataset` it is the
flat list of resized scalograms. -/
inductive WData where
  | raw : List (Nat × List (Nd Int × Int × Int)) → WData
  | remade : List (Nd Int) → WData

/-- The `self.labels` attribute of `WaveletSimCLR`: at construction the
per-recording label mapping; after `_remake_dataset` the flat per-window
label list. -/
inductive WLabels where
  | raw : (Nat → List Int) → WLabels
  | remade : List (List Int) → WLabels

/-- A `WaveletSimCLR` instance after `__init__`. -/
structure WaveletSimCLR where
  data : WData
  labels : WLabels
  lengths : List Nat
  shape : Nat × Nat
  n_views : Nat
  widths : Nat
  premake : Bool
  transform : Bool

/-- The keyword arguments of `WaveletSimCLR._setup` (absent key = `none`);
unrecognized keys go into `extra`, absorbed by `**kwargs`. -/
structure WKwargs where
  n_views : Option Nat
  widths : Option Nat
  shape : Option (Nat × Nat)
  premake : Option Bool
  transform : Option Bool
  extra : List (String × Nat)

/-- One `(scalogram, label)` pair per window of the input mapping, in
iteration order:
`cwt_matrix = signal.cwt(window.squeeze(0), ricker, arange(1, widths+1));
cwt_matrix = resizer(cwt_matrix)`, labelled with `self.labels[recording]`. -/
def remadePairs (widths : Nat) (shape : Nat × Nat)
    (data : List (Nat × List (Nd Int × Int × Int))) (labels : Nat → List Int) :
    List (Nd Int × List Int) :=
  data.flatMap (fun rw => rw.2.map (fun item =>
    (resizerT shape (cwtMat widths item.1.squeeze0), labels rw.1)))

/-- Total window count of the raw mapping. -/
def totalWindows (data : List (Nat × List (Nd Int × Int × Int))) : Nat :=
  (data.map (fun rw => rw.2.length)).sum

/-- `WaveletSimCLR._remake_dataset`: rebuild every window into a resized
scalogram with its recording's label, then
`assert len(remade_data) == sum(self.info['lengths'].values())` — an
`AssertionError` is fatal (`Except.error`), nothing is retried. -/
def remakeDataset (widths : Nat) (shape : Nat × Nat)
    (data : List (Nat × List (Nd Int × Int × Int))) (labels : Nat → List Int)
    (lengths : List Nat) :
    Except String (List (Nd Int) × List (List Int)) :=
  if (remadePairs widths shape data labels).length = lengths.sum then
    .ok ((remadePairs widths shape data labels).map (fun p => p.1),
         (remadePairs widths shape data labels).map (fun p => p.2))
  else
    .error "AssertionError: remade data doesn`t have the same amount of windows as previous data."

/-- `WaveletSimCLR._setup(n_views=2, widths=100, shape=(128,128),
premake=True, transform=False, **kwargs)` followed by the conditional
`self._remake_dataset()`; called by `__init__`.  Unrecognized keys are
absorbed by `**kwargs`; a failing remake assertion is fatal. -/
def waveletSetup (data : List (Nat × List (Nd Int × Int × Int)))
    (labels : Nat → List Int) (lengths : List Nat) (k : WKwargs) :
    Except String WaveletSimCLR :=
  let shape := k.shape.getD (128, 128)
  let nv := k.n_views.getD 2
  let widths := k.widths.getD 100
  let premake := k.premake.getD true
  let transform := k.transform.getD false
  if premake then
    match remakeDataset widths shape data labels lengths with
    | .error e => .error e
    | .ok dl =>
      .ok { data := .remade dl.1, labels := .remade dl.2, lengths := lengths,
            shape := shape, n_views := nv, widths := widths,
            premake := premake, transform := transform }
  else
    .ok { data := .raw data, labels := .raw labels, lengths := lengths,
          shape := shape, n_views := nv, widths := widths,
          premake := premake, transform := transform }

/-- Result of `WaveletSimCLR.__getitem__`: either the `(data, label)` pair
(transform flag off) or the list of augmented views, with no label
(transform flag on). -/
inductive GetRes where
  | pair : Nd Int → List Int → GetRes
  | views : List (Nd Int) → GetRes

/-- `WaveletSimCLR.__getitem__(index)`: when `self.transform` is set,
`return self.transforms(self.data[index])` (the scalogram
`ContrastiveViewGenerator`, consuming the global RNG state); otherwise
`return (self.data[index], self.labels[index])`.  `none` models the
`IndexError`/`KeyError` of an out-of-range index; the un-remade
(`premake=False`) mapping-indexing path is outside the modelled claims. -/
def wGetitem (w : WaveletSimCLR) (g : Nat) (i : Nat) : Option (GetRes × Nat) :=
  match w.transform, w.data, w.labels with
  | true, .remade d, _ =>
    (d[i]?).map (fun x =>
      let vg := wcvgCall (wPreprocess w.shape) w.n_views x g
      (.views vg.1, vg.2))
  | false, .remade d, .remade l =>
    match d[i]?, l[i]? with
    | some x, some y => some (.pair x y, g)
    | _, _ => none
  | _, _, _ => none

/-- The collection loop of `WaveletSimCLR._extract_embeddings`:
`for index in range(len(self)): if index % 25 != 0: continue; ...`,
appending the embedding and `self.labels[index]` pairwise. -/
def wExtractLoop (forward : Nd Int → Except String (List Int))
    (d : List (Nd Int)) (l : List (List Int)) :
    List Nat → Except String (List (List Int) × List (List Int))
  | [] => .ok ([], [])
  | i :: rest =>
    if i % 25 ≠ 0 then wExtractLoop forward d l rest
    else
      match d[i]? with
      | none => .error "IndexError: list index out of range"
      | some x =>
        match forward x with
        | .error e => .error e
        | .ok emb =>
          match l[i]? with
          | none => .error "IndexError: list index out of range"
          | some y =>
            match wExtractLoop forward d l rest with
            | .error e => .error e
            | .ok XY => .ok (emb :: XY.1, y :: XY.2)

/-- `WaveletSimCLR._extract_embeddings(emb, device)`: sets `emb.eval()` and
`emb._return_features = True`, runs the strided collection loop,
concatenates `X` (`np.concatenate` raises on an empty list), and only then
executes `emb._return_features = False` — exactly as in the source, with no
`try`/`finally`.  Only the remade-dataset state is modelled. -/
def wExtractEmbeddings (forward : Nd Int → Except String (List Int))
    (w : WaveletSimCLR) (_m : EncoderState) :
    Except String (List (List Int) × List (List Int)) × EncoderState :=
  let mIn : EncoderState := { return_features := true, evalMode := true }
  match w.data, w.labels with
  | .remade d, .remade l =>
    (match wExtractLoop forward d l (List.range d.length) with
     | .error e => (.error e, mIn)
     | .ok XY =>
       if XY.1.length = 0 then
         (.error "ValueError: need at least one array to concatenate", mIn)
       else
         (.ok XY, { mIn with return_features := false }))
  | _, _ => (.error "TypeError: unmodelled raw-mapping state", mIn)

/-! ### `slemeg.py`: the SLEMEG dataset constructor -/

/-- One row of the metadata table returned by the external
`fetch_meg_data` collaborator: subject/recording identifiers, the fixed
covariates, and the file path. -/
structure FPathEntry where
  subj_id : Int
  reco_id : Int
  gender : Int
  age : Int
  RTrecipControl : Int
  RTrecipSleep : Int
  RTControl : Int
  RTSleep : Int
  RTdiff : Int
  minor_lapses_control : Int
  minor_lapses_sleep : Int
  path : String

/-- A `braindecode.datasets.BaseDataset(raw, desc)` value (external
collaborator; contents abstracted). -/
structure BaseDatasetV where
  raw : String
  descSubj : Int
  descReco : Int

/-- `SLEMEG._fetch_and_load`: for every fetched metadata row, load the
recording (`load_raw_fif` is an external collaborator, passed in as
`loadRaw`), collect the `BaseDataset` values, and append the 11-element
label tuple `(subj_id, reco_id, gender, age, RTrecipControl, RTrecipSleep,
RTControl, RTSleep, RTdiff, minor_lapses_control, minor_lapses_sleep)`
pairwise.  Returns `(all_base_ds, self.labels)`. -/
def fetch_and_load (loadRaw : FPathEntry → BaseDatasetV)
    (fpaths : List FPathEntry) : List BaseDatasetV × List (List Int) :=
  (fpaths.map loadRaw,
   fpaths.map (fun e =>
     [e.subj_id, e.reco_id, e.gender, e.age, e.RTrecipControl,
      e.RTrecipSleep, e.RTControl, e.RTSleep, e.RTdiff,
      e.minor_lapses_control, e.minor_lapses_sleep]))

/-! ### Shape lemmas for the image pipeline -/

theorem ndAllShape_iff {α : Type} (xs : List (Nd α)) (s : List Nat) :
    Nd.ndAllShape xs s = true ↔ ∀ x ∈ xs, x.hasShape s := by
  induction xs with
  | nil => simp [Nd.ndAllShape]
  | cons x xs ih => simp [Nd.ndAllShape, ih]

theorem ndMapList_length (f : Int → Int) (xs : List (Nd Int)) :
    (ndMapList f xs).length = xs.length := by
  induction xs with
  | nil => simp [ndMapList]
  | cons x xs ih => simp [ndMapList, ih]

mutual

theorem ndMap_hasShape (f : Int → Int) :
    (x : Nd Int) → (s : List Nat) → x.hasShape s → (ndMap f x).hasShape s
  | .item _, [], _ => by simp [ndMap, Nd.hasShape]
  | .item _, _ :: _, h => by simp [Nd.hasShape] at h
  | .node _, [], h => by simp [Nd.hasShape] at h
  | .node xs, n :: s, h => by
    simp [Nd.hasShape, ndMap, ndMapList_length] at h ⊢
    exact ⟨h.1, ndMapList_allShape f xs s h.2⟩

theorem ndMapList_allShape (f : Int → Int) :
    (xs : List (Nd Int)) → (s : List Nat) → Nd.ndAllShape xs s →
      Nd.ndAllShape (ndMapList f xs) s
  | [], _, _ => by simp [ndMapList, Nd.ndAllShape]
  | x :: xs, s, h => by
    simp [Nd.ndAllShape, ndMapList] at h ⊢
    exact ⟨ndMap_hasShape f x s h.1, ndMapList_allShape f xs s h.2⟩

end

theorem hflipMat_hasShape (x : Nd Int) (r c : Nat) (h : x.hasShape [r, c]) :
    (hflipMat x).hasShape [r, c] := by
  cases x with
  | item a => simp [Nd.hasShape] at h
  | node rows =>
    simp [Nd.hasShape] at h
    simp [hflipMat, Nd.hasShape, h.1]
    rw [ndAllShape_iff]
    intro y hy
    obtain ⟨row, hrow, hmap⟩ := List.mem_map.mp hy
    have hrs : row.hasShape [c] := (ndAllShape_iff rows [c]).mp h.2 row hrow
    cases row with
    | item a => simp [Nd.hasShape] at hrs
    | node es =>
      simp [Nd.hasShape] at hrs
      subst hmap
      simp [Nd.hasShape, hrs.1]
      rw [ndAllShape_iff]
      intro e he
      exact (ndAllShape_iff es []).mp hrs.2 e (List.mem_reverse.mp he)

theorem vflipMat_hasShape (x : Nd Int) (r c : Nat) (h : x.hasShape [r, c]) :
    (vflipMat x).hasShape [r, c] := by
  cases x with
  | item a => simp [Nd.hasShape] at h
  | node rows =>
    simp [Nd.hasShape] at h
    simp [vflipMat, Nd.hasShape, h.1]
    rw [ndAllShape_iff]
    intro y hy
    exact (ndAllShape_iff rows [c]).mp h.2 y (List.mem_reverse.mp hy)

theorem resizeTo_shape (h w : Nat) (img : Nd Int) :
    (resizeTo h w img).hasShape [h, w] := mkMat_shape h w _

theorem randomResizedCropT_shape (sh : Nat × Nat) (g : Nat) (img : Nd Int) :
    ((randomResizedCropT sh) g img).1.hasShape [sh.1, sh.2] := by
  simp [randomResizedCropT]
  exact resizeTo_shape sh.1 sh.2 _

theorem randomInvertT_shape (g : Nat) (img : Nd Int) (r c : Nat)
    (h : img.hasShape [r, c]) : ((randomInvertT) g img).1.hasShape [r, c] := by
  simp only [randomInvertT]
  split
  · exact ndMap_hasShape _ img [r, c] h
  · exact h

theorem randomHorizontalFlipT_shape (g : Nat) (img : Nd Int) (r c : Nat)
    (h : img.hasShape [r, c]) :
    ((randomHorizontalFlipT) g img).1.hasShape [r, c] := by
  simp only [randomHorizontalFlipT]
  split
  · exact hflipMat_hasShape img r c h
  · exact h

theorem randomVerticalFlipT_shape (g : Nat) (img : Nd Int) (r c : Nat)
    (h : img.hasShape [r, c]) :
    ((randomVerticalFlipT) g img).1.hasShape [r, c] := by
  simp only [randomVerticalFlipT]
  split
  · exact vflipMat_hasShape img r c h
  · exact h

/-- Every output of the scalogram preprocessing pipeline has the configured
image shape: the leading `RandomResizedCrop` rasterizes to `sh` and the
following invert/flip transforms preserve shape. -/
theorem wPreprocess_shape (sh : Nat × Nat) (g : Nat) (x : Nd Int) :
    ((wPreprocess sh) g x).1.hasShape [sh.1, sh.2] := by
  simp only [wPreprocess, wPreprocessList, composeT]
  apply randomVerticalFlipT_shape
  apply randomHorizontalFlipT_shape
  apply randomInvertT_shape
  apply randomResizedCropT_shape

/-! ### Behaviour of the view generators -/

theorem wcvgCall_length (t : SigTransform) (n : Nat) (x : Nd Int) (g : Nat) :
    (wcvgCall t n x g).1.length = n := by
  induction n generalizing g with
  | zero => simp [wcvgCall]
  | succ n ih => simp [wcvgCall, ih]

/-- Each view of the scalogram generator is one application of the held
callable to the unmodified source `x`, at some RNG state. -/
theorem wcvgCall_views (t : SigTransform) (n : Nat) (x : Nd Int) (g : Nat) :
    ∀ k, k < n → ∃ g0, (wcvgCall t n x g).1[k]? = some (t g0 x).1 := by
  induction n generalizing g with
  | zero => intro k hk; omega
  | succ n ih =>
    intro k hk
    cases k with
    | zero => exact ⟨g, by simp [wcvgCall]⟩
    | succ k =>
      obtain ⟨g0, h0⟩ := ih (t g x).2 k (by omega)
      exact ⟨g0, by simpa [wcvgCall] using h0⟩

/-- The signal generator over an index list of in-bounds transform indices:
it yields one view per index, and the `k`-th view is the `is[k]`-th
configured transform applied (at some RNG state) to the unmodified `x`. -/
theorem cvgCallAux_spec (ts : List SigTransform) (x : Nd Int) :
    ∀ (is : List Nat), (∀ i ∈ is, i < ts.length) → ∀ g,
      ∃ vs g', cvgCallAux ts x is g = some (vs, g') ∧ vs.length = is.length ∧
        ∀ (k i : Nat), is[k]? = some i →
          ∃ (g0 : Nat) (f : SigTransform), ts[i]? = some f ∧
            vs[k]? = some (f g0 x).1 := by
  intro is
  induction is with
  | nil => exact fun _ g => ⟨[], g, rfl, rfl, by simp⟩
  | cons i is ih =>
    intro hbound g
    have hi : i < ts.length := hbound i (List.mem_cons_self i is)
    obtain ⟨f, hf⟩ : ∃ f, ts[i]? = some f :=
      ⟨ts[i], (List.getElem?_eq_getElem hi)⟩
    obtain ⟨vs, g', hrec, hlen, hview⟩ :=
      ih (fun j hj => hbound j (List.mem_cons_of_mem i hj)) (f g x).2
    refine ⟨(f g x).1 :: vs, g', ?_, by simp [hlen], ?_⟩
    · simp [cvgCallAux, hf, hrec]
    · intro k j hkj
      cases k with
      | zero =>
        simp at hkj
        subst hkj
        exact ⟨g, f, hf, by simp⟩
      | succ k =>
        simp at hkj
        obtain ⟨g0, f0, hf0, hv0⟩ := hview k j (by simpa using hkj)
        exact ⟨g0, f0, hf0, by simpa using hv0⟩

theorem list_range_two : List.range 2 = [0, 1] := rfl

/-- `ContrastiveViewGenerator.__call__` with exactly the two transforms
`_parameters` configures and `n_views = 2`: the first view applies `t1` to
`x` at the current RNG state, the second applies `t2` to the unmodified `x`
at the advanced state. -/
theorem cvg_call_two (t1 t2 : SigTransform) (x : Nd Int) (g : Nat) :
    ContrastiveViewGenerator.call ⟨[t1, t2], 2⟩ x g =
      some ([(t1 g x).1, (t2 (t1 g x).2 x).1], (t2 (t1 g x).2 x).2) := by
  show cvgCallAux [t1, t2] x (List.range 2) g = _
  rw [list_range_two]
  simp [cvgCallAux]

/-! ### Claim C8 -/

/-- C8: `SLEMEG._fetch_and_load` produces exactly one metadata label tuple
per loaded recording — `len(labels) == len(recordings)` — each label has the
same fixed arity 11 (subject id, recording id, and the fixed covariates),
and the `i`-th label corresponds to the `i`-th recording (both derived from
the `i`-th fetched metadata row). -/
theorem slemeg_labels_one_per_recording (loadRaw : FPathEntry → BaseDatasetV)
    (fpaths : List FPathEntry) :
    (fetch_and_load loadRaw fpaths).2.length =
      (fetch_and_load loadRaw fpaths).1.length ∧
    (∀ lab ∈ (fetch_and_load loadRaw fpaths).2, lab.length = 11) ∧
    (∀ i : Nat,
      (fetch_and_load loadRaw fpaths).1[i]? = (fpaths[i]?).map loadRaw ∧
      (fetch_and_load loadRaw fpaths).2[i]? = (fpaths[i]?).map (fun e =>
        [e.subj_id, e.reco_id, e.gender, e.age, e.RTrecipControl,
         e.RTrecipSleep, e.RTControl, e.RTSleep, e.RTdiff,
         e.minor_lapses_control, e.minor_lapses_sleep])) := by
  refine ⟨by simp [fetch_and_load], ?_, ?_⟩
  · intro lab hlab
    obtain ⟨e, _, he⟩ := List.mem_map.mp hlab
    simp [← he]
  · intro i
    simp [fetch_and_load]

/-- A concrete metadata row, used by witnesses. -/
def fp0 : FPathEntry :=
  ⟨2, 0, 1, 25, 3, 4, 5, 6, 7, 8, 9, "sub-02_ses-con_task-control"⟩

/-- A concrete stand-in for the external `load_raw_fif` collaborator. -/
def loadRaw0 : FPathEntry → BaseDatasetV := fun e =>
  ⟨e.path, e.subj_id, e.reco_id⟩

theorem slemeg_labels_one_per_recording_witness :
    (fetch_and_load loadRaw0 [fp0]).2.length =
      (fetch_and_load loadRaw0 [fp0]).1.length ∧
    ([fp0.subj_id, fp0.reco_id, fp0.gender, fp0.age, fp0.RTrecipControl,
      fp0.RTrecipSleep, fp0.RTControl, fp0.RTSleep, fp0.RTdiff,
      fp0.minor_lapses_control, fp0.minor_lapses_sleep] : List Int).length = 11 :=
  ⟨(slemeg_labels_one_per_recording loadRaw0 [fp0]).1,
   (slemeg_labels_one_per_recording loadRaw0 [fp0]).2.1 _
     (by simp [fetch_and_load])⟩

/-! ### Claim C6 -/

theorem remadePairs_length (widths : Nat) (shape : Nat × Nat)
    (data : List (Nat × List (Nd Int × Int × Int))) (labels : Nat → List Int) :
    (remadePairs widths shape data labels).length = totalWindows data := by
  simp [remadePairs, totalWindows, Function.comp_def, List.length_map]

/-- C6: `_remake_dataset` rebuilds exactly one scalogram entry per window of
the input mapping and one label per entry; it succeeds exactly when the
rebuilt length equals the expected total window count
(`sum(info['lengths'].values())`), and otherwise fails with a fatal
`AssertionError` (an `Except.error`, nothing retried). -/
theorem remake_dataset_one_entry_per_window (widths : Nat) (shape : Nat × Nat)
    (data : List (Nat × List (Nd Int × Int × Int))) (labels : Nat → List Int)
    (lengths : List Nat) :
    (∀ d l, remakeDataset widths shape data labels lengths = Except.ok (d, l) →
      d.length = totalWindows data ∧ l.length = d.length) ∧
    ((∃ d l, remakeDataset widths shape data labels lengths = Except.ok (d, l)) ↔
      totalWindows data = lengths.sum) := by
  constructor
  · intro d l h
    unfold remakeDataset at h
    split at h
    · rename_i heq
      simp at h
      obtain ⟨hd, hl⟩ := h
      subst hd
      subst hl
      simp [remadePairs_length]
    · simp at h
  · unfold remakeDataset
    split
    · rename_i heq
      rw [remadePairs_length] at heq
      exact ⟨fun _ => heq, fun _ => ⟨_, _, rfl⟩⟩
    · rename_i heq
      rw [remadePairs_length] at heq
      constructor
      · intro ⟨d, l, hdl⟩
        simp at hdl
      · intro h
        exact absurd h heq

theorem remake_dataset_one_entry_per_window_witness :
    ([resizerT (2, 2) (cwtMat 2 (Nd.node [mkRow 2 (fun _ => 3)]).squeeze0)] :
        List (Nd Int)).length =
      totalWindows [(0, [(Nd.node [mkRow 2 (fun _ => 3)], 1, 2)])] ∧
    ([[7]] : List (List Int)).length = 1 :=
  have h := (remake_dataset_one_entry_per_window 2 (2, 2)
      [(0, [(Nd.node [mkRow 2 (fun _ => 3)], 1, 2)])] (fun _ => [7]) [1]).1
      _ _ (by rfl)
  ⟨h.1, by simp⟩

/-! ### Claim C7 -/

/-- C7: at sampler construction, unrecognized keys are ignored (they reach
`**kwargs` and have no effect on the result), a missing required key
(`n_channels` for `SignalSampler._parameters`) fails with a configuration
error at construction time, and recognized optional keys (`n_views`,
`crop_partitions`, `permutation_partitions`; and the wavelet `_setup`
defaults) take their defaults when absent. -/
theorem construction_config_contract (k : Kwargs) (wk : WKwargs)
    (data : List (Nat × List (Nd Int × Int × Int))) (labels : Nat → List Int)
    (lengths : List Nat) :
    (k.n_channels = none → ∃ e, signalParameters k = Except.error e) ∧
    (∀ e1 e2, signalParameters { k with extra := e1 } =
      signalParameters { k with extra := e2 }) ∧
    (∀ c, k.n_channels = some c → k.n_views = none → k.crop_partitions = none →
      k.permutation_partitions = none →
      signalParameters k =
        Except.ok ⟨c, 2, 5, 10, [CropResizeTransform 5, PermutationTransform 10]⟩) ∧
    (∀ e1 e2, waveletSetup data labels lengths { wk with extra := e1 } =
      waveletSetup data labels lengths { wk with extra := e2 }) ∧
    (wk.n_views = none → wk.widths = none → wk.shape = none →
      wk.premake = none → wk.transform = none →
      ∀ w, waveletSetup data labels lengths wk = Except.ok w →
        w.shape = (128, 128) ∧ w.n_views = 2 ∧ w.widths = 100 ∧
        w.premake = true ∧ w.transform = false) := by
  refine ⟨?_, ?_, ?_, ?_, ?_⟩
  · intro h
    exact ⟨"TypeError: _parameters() missing required argument n_channels",
      by simp [signalParameters, h]⟩
  · intro e1 e2
    simp [signalParameters]
  · intro c hc hv hcp hpp
    simp [signalParameters, hc, hv, hcp, hpp]
  · intro e1 e2
    simp [waveletSetup]
  · intro hv hwid hsh hpm htr w hok
    simp [waveletSetup, hv, hwid, hsh, hpm, htr] at hok
    split at hok
    · simp at hok
    · simp at hok
      subst hok
      exact ⟨rfl, rfl, rfl, rfl, rfl⟩

theorem construction_config_contract_witness :
    (∃ e, signalParameters ⟨none, none, none, none, [("warmup", 3)]⟩ =
      Except.error e) ∧
    signalParameters ⟨some 4, none, none, none, []⟩ =
      Except.ok ⟨4, 2, 5, 10, [CropResizeTransform 5, PermutationTransform 10]⟩ :=
  ⟨(construction_config_contract ⟨none, none, none, none, [("warmup", 3)]⟩
      ⟨none, none, none, none, none, []⟩ [] (fun _ => []) []).1 rfl,
   (construction_config_contract ⟨some 4, none, none, none, []⟩
      ⟨none, none, none, none, none, []⟩ [] (fun _ => []) []).2.2.1 4
      rfl rfl rfl rfl⟩

/-! ### Claim C2 -/

/-- A pre-call encoder state with the features-only flag cleared. -/
def encBefore : EncoderState := ⟨false, false⟩

/-- A concrete encoder forward pass that raises. -/
def fwdRaise : Nd Int → Except String (List Int) := fun _ =>
  Except.error "RuntimeError: CUDA error"

/-- A concrete encoder forward pass that succeeds. -/
def fwdOk : Nd Int → Except String (List Int) := fun _ => Except.ok [1]

/-- A concrete one-recording, one-window signal sampler. -/
def S0 : SignalSampler :=
  { data := [[(Nd.item 0, 0, 0)]], labels := [[5]], batch_size := 1,
    cfg := ⟨1, 2, 5, 10, []⟩ }

/-- C2 counterexample: the claim says the `_return_features` flag equals its
pre-call cleared state (`False`) also whenever extraction raises; but when
the encoder raises on the first window, `_extract_features` propagates the
exception with the flag still set to `True` (there is no `try`/`finally`
around the restore line). -/
theorem extract_features_flag_counterexample :
    (∃ e, (extractFeatures fwdRaise S0 encBefore).1 = Except.error e) ∧
    (extractFeatures fwdRaise S0 encBefore).2.return_features = true ∧
    encBefore.return_features = false :=
  ⟨⟨"RuntimeError: CUDA error", rfl⟩, rfl, rfl⟩

/-- C2 amended: `_extract_features` / `_extract_embeddings` set the
features-only flag and eval mode on entry; on every normal return the flag
is restored to `False` (with eval mode still set), while on every
exceptional exit the flag is left `True` — restoration happens only on the
normal path. -/
theorem extract_features_flag_restoration (forward : Nd Int → Except String (List Int))
    (S : SignalSampler) (w : WaveletSimCLR) (m m' : EncoderState) :
    ((∃ v, (extractFeatures forward S m).1 = Except.ok v) →
      (extractFeatures forward S m).2 = ⟨false, true⟩) ∧
    ((∃ e, (extractFeatures forward S m).1 = Except.error e) →
      (extractFeatures forward S m).2 = ⟨true, true⟩) ∧
    ((∃ v, (wExtractEmbeddings forward w m').1 = Except.ok v) →
      (wExtractEmbeddings forward w m').2 = ⟨false, true⟩) ∧
    ((∃ e, (wExtractEmbeddings forward w m').1 = Except.error e) →
      (wExtractEmbeddings forward w m').2 = ⟨true, true⟩) := by
  refine ⟨?_, ?_, ?_, ?_⟩
  · intro ⟨v, hv⟩
    unfold extractFeatures at hv ⊢
    split at hv
    · simp at hv
    · split at hv
      · simp at hv
      · simp [*]
  · intro ⟨e, he⟩
    unfold extractFeatures at he ⊢
    split at he
    · simp [*]
    · split at he
      · simp [*]
      · simp at he
  · intro ⟨v, hv⟩
    unfold wExtractEmbeddings at hv ⊢
    split at hv
    · split at hv
      · simp at hv
      · split at hv
        · simp at hv
        · simp [*]
    · simp at hv
  · intro ⟨e, he⟩
    unfold wExtractEmbeddings at he ⊢
    split at he
    · split at he
      · simp [*]
      · split at he
        · simp [*]
        · simp at he
    · simp [*]

theorem extract_features_flag_restoration_witness :
    (extractFeatures fwdOk S0 encBefore).2 = ⟨false, true⟩ ∧
    (extractFeatures fwdRaise S0 encBefore).2 = ⟨true, true⟩ :=
  ⟨(extract_features_flag_restoration fwdOk S0
      ⟨.remade [], .remade [], [], (128, 128), 2, 100, true, false⟩
      encBefore encBefore).1 ⟨([[1]], [5]), rfl⟩,
   (extract_features_flag_restoration fwdRaise S0
      ⟨.remade [], .remade [], [], (128, 128), 2, 100, true, false⟩
      encBefore encBefore).2.1 ⟨"RuntimeError: CUDA error", rfl⟩⟩

/-! ### Claim C3 -/

theorem extractLoop_spec (forward : Nd Int → Except String (List Int))
    (labels : List (List Int)) :
    ∀ (ws : List (Nat × Nd Int)) (X : List (List Int)) (Y : List Int),
      extractLoop forward labels ws = Except.ok (X, Y) →
      X.length = ws.length ∧ Y.length = ws.length ∧
      ∀ (k r : Nat) (x : Nd Int), ws[k]? = some (r, x) →
        (∃ f, X[k]? = some f ∧ forward x = Except.ok f) ∧
        (∃ y, Y[k]? = some y ∧ labels[r]? = some [y]) := by
  intro ws
  induction ws with
  | nil =>
    intro X Y h
    simp [extractLoop] at h
    obtain ⟨hX, hY⟩ := h
    subst hX
    subst hY
    simp
  | cons p rest ih =>
    obtain ⟨r0, x0⟩ := p
    intro X Y h
    simp only [extractLoop] at h
    cases hfw : forward x0 with
    | error e => rw [hfw] at h; simp at h
    | ok feat =>
      rw [hfw] at h
      cases hlab : labels[r0]? with
      | none => rw [hlab] at h; simp at h
      | some lab =>
        rw [hlab] at h
        cases lab with
        | nil => simp at h
        | cons y ys =>
          cases ys with
          | cons z zs => simp at h
          | nil =>
            cases hrec : extractLoop forward labels rest with
            | error e => rw [hrec] at h; simp at h
            | ok XY =>
              obtain ⟨X', Y'⟩ := XY
              rw [hrec] at h
              simp at h
              obtain ⟨hX, hY⟩ := h
              subst hX
              subst hY
              obtain ⟨ihl1, ihl2, ihk⟩ := ih X' Y' hrec
              refine ⟨by simp [ihl1], by simp [ihl2], ?_⟩
              intro k r x hk
              cases k with
              | zero =>
                simp at hk
                obtain ⟨hr, hx⟩ := hk
                subst hr
                subst hx
                exact ⟨⟨feat, by simp, hfw⟩, ⟨y, by simp, hlab⟩⟩
              | succ k =>
                simp only [List.getElem?_cons_succ] at hk
                obtain ⟨h1, h2⟩ := ihk k r x hk
                constructor
                · obtain ⟨f, hf1, hf2⟩ := h1
                  exact ⟨f, by simpa using hf1, hf2⟩
                · obtain ⟨yy, hy1, hy2⟩ := h2
                  exact ⟨yy, by simpa using hy1, hy2⟩

theorem wExtractLoop_spec (forward : Nd Int → Except String (List Int))
    (d : List (Nd Int)) (l : List (List Int)) :
    ∀ (is : List Nat) (X Y : List (List Int)),
      wExtractLoop forward d l is = Except.ok (X, Y) →
      X.length = (is.filter (fun i => i % 25 == 0)).length ∧
      Y.length = X.length ∧
      ∀ (k i : Nat), (is.filter (fun i => i % 25 == 0))[k]? = some i →
        (∃ x f, d[i]? = some x ∧ forward x = Except.ok f ∧ X[k]? = some f) ∧
        ∃ y, Y[k]? = some y ∧ l[i]? = some y := by
  intro is
  induction is with
  | nil =>
    intro X Y h
    simp [wExtractLoop] at h
    obtain ⟨hX, hY⟩ := h
    subst hX
    subst hY
    simp
  | cons i rest ih =>
    intro X Y h
    by_cases hmod : i % 25 = 0
    · have hred : wExtractLoop forward d l (i :: rest) =
          match d[i]? with
          | none => Except.error "IndexError: list index out of range"
          | some x =>
            match forward x with
            | .error e => .error e
            | .ok emb =>
              match l[i]? with
              | none => Except.error "IndexError: list index out of range"
              | some y =>
                match wExtractLoop forward d l rest with
                | .error e => .error e
                | .ok XY => .ok (emb :: XY.1, y :: XY.2) := by
        simp [wExtractLoop, hmod]
      rw [hred] at h
      have hfilter : (i :: rest).filter (fun i => i % 25 == 0) =
          i :: rest.filter (fun i => i % 25 == 0) := by
        simp [List.filter_cons, hmod]
      rw [hfilter]
      cases hd : d[i]? with
      | none => rw [hd] at h; simp at h
      | some x =>
        rw [hd] at h
        simp only [] at h
        cases hfw : forward x with
        | error e => rw [hfw] at h; simp at h
        | ok emb =>
          rw [hfw] at h
          cases hl : l[i]? with
          | none => rw [hl] at h; simp at h
          | some y =>
            rw [hl] at h
            cases hrec : wExtractLoop forward d l rest with
            | error e => rw [hrec] at h; simp at h
            | ok XY =>
              rw [hrec] at h
              simp at h
              obtain ⟨hX, hY⟩ := h
              subst hX
              subst hY
              obtain ⟨ihl1, ihl2, ihk⟩ := ih XY.1 XY.2 hrec
              refine ⟨by simp [ihl1], by simp [ihl2, ihl1], ?_⟩
              intro k j hk
              cases k with
              | zero =>
                simp at hk
                subst hk
                exact ⟨⟨x, emb, hd, hfw, by simp⟩, ⟨y, by simp, hl⟩⟩
              | succ k =>
                simp only [List.getElem?_cons_succ] at hk
                obtain ⟨h1, h2⟩ := ihk k j hk
                constructor
                · obtain ⟨xx, ff, ha, hb, hc⟩ := h1
                  exact ⟨xx, ff, ha, hb, by simpa using hc⟩
                · obtain ⟨yy, hy1, hy2⟩ := h2
                  exact ⟨yy, by simpa using hy1, hy2⟩
    · have hskip : wExtractLoop forward d l (i :: rest) =
          wExtractLoop forward d l rest := by
        simp [wExtractLoop, hmod]
      rw [hskip] at h
      have hfilter : (i :: rest).filter (fun i => i % 25 == 0) =
          rest.filter (fun i => i % 25 == 0) := by
        simp [List.filter_cons, hmod]
      rw [hfilter]
      exact ih X Y h

/-- C3: whenever feature extraction returns, it returns a feature matrix `X`
and a label list `Y` with `len(X) == len(Y)`, one embedding record per
sampled window (all windows for `_extract_features`; the stride-25 subsample
for `_extract_embeddings`), and enumeration order is preserved: the `k`-th
feature comes from the `k`-th sampled window and the `k`-th label is the
metadata label of that window's recording. -/
theorem extraction_output_alignment (forward : Nd Int → Except String (List Int))
    (S : SignalSampler) (w : WaveletSimCLR) (m m' : EncoderState) :
    (∀ X Y mo, extractFeatures forward S m = (Except.ok (X, Y), mo) →
      X.length = Y.length ∧ X.length = (enumWindows S.data).length ∧
      ∀ (k r : Nat) (x : Nd Int), (enumWindows S.data)[k]? = some (r, x) →
        (∃ f, X[k]? = some f ∧ forward x = Except.ok f) ∧
        (∃ y, Y[k]? = some y ∧ S.labels[r]? = some [y])) ∧
    (∀ d l X Y mo, w.data = WData.remade d → w.labels = WLabels.remade l →
      wExtractEmbeddings forward w m' = (Except.ok (X, Y), mo) →
      X.length = Y.length ∧
      X.length = ((List.range d.length).filter (fun i => i % 25 == 0)).length ∧
      ∀ (k i : Nat),
        ((List.range d.length).filter (fun i => i % 25 == 0))[k]? = some i →
        (∃ x f, d[i]? = some x ∧ forward x = Except.ok f ∧ X[k]? = some f) ∧
        ∃ y, Y[k]? = some y ∧ l[i]? = some y) := by
  constructor
  · intro X Y mo h
    unfold extractFeatures at h
    cases hloop : extractLoop forward S.labels (enumWindows S.data) with
    | error e => rw [hloop] at h; simp at h
    | ok XY =>
      obtain ⟨X1, Y1⟩ := XY
      rw [hloop] at h
      simp only [] at h
      split at h
      · simp at h
      · simp at h
        obtain ⟨⟨hX, hY⟩, _⟩ := h
        subst hX
        subst hY
        obtain ⟨h1, h2, h3⟩ := extractLoop_spec forward S.labels _ X1 Y1 hloop
        exact ⟨by rw [h1, h2], h1, h3⟩
  · intro d l X Y mo hd hl h
    unfold wExtractEmbeddings at h
    rw [hd, hl] at h
    simp only [] at h
    cases hloop : wExtractLoop forward d l (List.range d.length) with
    | error e => rw [hloop] at h; simp at h
    | ok XY =>
      obtain ⟨X1, Y1⟩ := XY
      rw [hloop] at h
      simp only [] at h
      split at h
      · simp at h
      · simp at h
        obtain ⟨⟨hX, hY⟩, _⟩ := h
        subst hX
        subst hY
        obtain ⟨h1, h2, h3⟩ := wExtractLoop_spec forward d l _ X1 Y1 hloop
        exact ⟨by rw [h2], h1, h3⟩

/-- A concrete wavelet dataset state with an empty remade dataset. -/
def W0 : WaveletSimCLR :=
  ⟨.remade [], .remade [], [], (128, 128), 2, 100, true, false⟩

theorem extraction_output_alignment_witness :
    ([[1]] : List (List Int)).length = ([5] : List Int).length ∧
    ([[1]] : List (List Int)).length = (enumWindows S0.data).length :=
  have h := (extraction_output_alignment fwdOk S0 W0 encBefore encBefore).1
    [[1]] [5] ⟨false, true⟩ rfl
  ⟨h.1, h.2.1⟩

/-! ### Claim C10 -/

/-- C10: for an in-bounds index `i` on the rebuilt dataset,
`WaveletSimCLR.__getitem__(i)` returns the pair `(data[i], labels[i])` when
the transform flag is off; when it is on it instead returns a list of
`n_views` augmented views of `data[i]` (each one application of the
preprocessing pipeline to the unmodified `data[i]`), and the metadata label
is not part of the returned value. -/
theorem wavelet_getitem_spec (w : WaveletSimCLR) (d : List (Nd Int))
    (l : List (List Int)) (hd : w.data = WData.remade d)
    (hl : w.labels = WLabels.remade l) (i : Nat) (hi : i < d.length)
    (hil : i < l.length) (g : Nat) :
    (w.transform = false →
      wGetitem w g i = some (.pair (d.get ⟨i, hi⟩) (l.get ⟨i, hil⟩), g)) ∧
    (w.transform = true → ∃ vs g', wGetitem w g i = some (.views vs, g') ∧
      vs.length = w.n_views ∧
      ∀ k, k < w.n_views → ∃ g0,
        vs[k]? = some ((wPreprocess w.shape) g0 (d.get ⟨i, hi⟩)).1) := by
  constructor
  · intro ht
    unfold wGetitem
    rw [ht, hd, hl]
    simp only []
    rw [List.getElem?_eq_getElem hi, List.getElem?_eq_getElem hil]
    rfl
  · intro ht
    unfold wGetitem
    rw [ht, hd]
    simp only []
    rw [List.getElem?_eq_getElem hi]
    refine ⟨(wcvgCall (wPreprocess w.shape) w.n_views (d.get ⟨i, hi⟩) g).1,
      (wcvgCall (wPreprocess w.shape) w.n_views (d.get ⟨i, hi⟩) g).2, ?_, ?_, ?_⟩
    · rfl
    · exact wcvgCall_length _ _ _ _
    · exact fun k hk => wcvgCall_views _ _ _ _ k hk

/-- A concrete 2×2 scalogram entry. -/
def img0 : Nd Int := mkMat 2 2 (fun i j => Int.ofNat (i + j))

/-- A one-entry rebuilt wavelet dataset with the transform flag off. -/
def W1 : WaveletSimCLR :=
  ⟨.remade [img0], .remade [[3]], [1], (2, 2), 2, 100, true, false⟩

/-- A one-entry rebuilt wavelet dataset with the transform flag on. -/
def W2 : WaveletSimCLR :=
  ⟨.remade [img0], .remade [[3]], [1], (2, 2), 2, 100, true, true⟩

theorem wavelet_getitem_spec_witness :
    wGetitem W1 0 0 = some (.pair img0 [3], 0) ∧
    ∃ vs g', wGetitem W2 0 0 = some (.views vs, g') ∧ vs.length = 2 :=
  ⟨(wavelet_getitem_spec W1 [img0] [[3]] rfl rfl 0 (by decide) (by decide) 0).1 rfl,
   have h := (wavelet_getitem_spec W2 [img0] [[3]] rfl rfl 0 (by decide)
     (by decide) 0).2 rfl
   ⟨h.choose, h.choose_spec.choose, h.choose_spec.choose_spec.1,
    h.choose_spec.choose_spec.2.1⟩⟩

/-! ### Claim C9 -/

theorem wcvgCall_mem (t : SigTransform) :
    ∀ (n : Nat) (x : Nd Int) (g : Nat),
      ∀ v ∈ (wcvgCall t n x g).1, ∃ g0, v = (t g0 x).1 := by
  intro n
  induction n with
  | zero => intro x g v hv; simp [wcvgCall] at hv
  | succ n ih =>
    intro x g v hv
    simp [wcvgCall] at hv
    rcases hv with hv | hv
    · exact ⟨g, hv⟩
    · exact ih x (t g x).2 v hv

/-- C9: on the premake path of `_setup`, every window is first rasterized
through the wavelet/scalogram transform and resized to the configured fixed
image shape (default `(128, 128)`) before any crop/flip/invert augmentation
is applied — the rebuilt data is exactly the per-window
`resizer(cwt(window))` list — and consequently every rebuilt entry, and
every augmented view the preprocessing pipeline produces, has that fixed
2-D shape. -/
theorem wavelet_rasterize_before_augment
    (data : List (Nat × List (Nd Int × Int × Int))) (labels : Nat → List Int)
    (lengths : List Nat) (k : WKwargs) (w : WaveletSimCLR)
    (hpre : k.premake.getD true = true)
    (hw : waveletSetup data labels lengths k = Except.ok w) :
    (k.shape = none → w.shape = (128, 128)) ∧
    ∃ d l, w.data = WData.remade d ∧ w.labels = WLabels.remade l ∧
      d = (remadePairs (k.widths.getD 100) (k.shape.getD (128, 128)) data
        labels).map (fun p => p.1) ∧
      (∀ x ∈ d, x.hasShape [w.shape.1, w.shape.2]) ∧
      (∀ (x : Nd Int) (g : Nat),
        ∀ v ∈ (wcvgCall (wPreprocess w.shape) w.n_views x g).1,
          v.hasShape [w.shape.1, w.shape.2]) := by
  simp only [waveletSetup] at hw
  rw [hpre] at hw
  simp only [if_true] at hw
  cases hr : remakeDataset (k.widths.getD 100) (k.shape.getD (128, 128)) data
      labels lengths with
  | error e => rw [hr] at hw; simp at hw
  | ok dl =>
    rw [hr] at hw
    simp only [] at hw
    simp at hw
    subst hw
    simp only [remakeDataset] at hr
    split at hr
    · simp at hr
      refine ⟨fun hsh => by simp [hsh], ?_⟩
      refine ⟨_, _, rfl, rfl, by rw [← hr], ?_, ?_⟩
      · intro x hx
        rw [← hr] at hx
        obtain ⟨p, hp, hpx⟩ := List.mem_map.mp hx
        rw [remadePairs] at hp
        obtain ⟨rw', hrw, hpmem⟩ := List.mem_flatMap.mp hp
        obtain ⟨item, hitem, hval⟩ := List.mem_map.mp hpmem
        rw [← hpx, ← hval]
        simpa [resizerT] using resizeTo_shape (k.shape.getD (128, 128)).1
          (k.shape.getD (128, 128)).2 _
      · intro x g v hv
        obtain ⟨g0, hg0⟩ := wcvgCall_mem _ _ x g v hv
        rw [hg0]
        exact wPreprocess_shape _ g0 x
    · simp at hr

/-- A concrete one-recording, one-window raw mapping. -/
def data3 : List (Nat × List (Nd Int × Int × Int)) :=
  [(0, [(Nd.node [mkRow 3 (fun j => Int.ofNat j)], 0, 0)])]

/-- Concrete `_setup` keyword arguments: small widths/shape, rest default. -/
def kw3 : WKwargs := ⟨none, some 1, some (2, 2), none, none, []⟩

/-- The `WaveletSimCLR` state `_setup` builds from `data3` and `kw3`. -/
def W3 : WaveletSimCLR :=
  ⟨.remade [resizerT (2, 2)
      (cwtMat 1 (Nd.node [mkRow 3 (fun j => Int.ofNat j)]).squeeze0)],
   .remade [[2]], [1], (2, 2), 2, 1, true, false⟩

theorem wavelet_rasterize_before_augment_witness :
    (kw3.shape = none → W3.shape = (128, 128)) ∧
    ∃ d l, W3.data = WData.remade d ∧ W3.labels = WLabels.remade l ∧
      d = (remadePairs (kw3.widths.getD 100) (kw3.shape.getD (128, 128)) data3
        (fun _ => [2])).map (fun p => p.1) ∧
      (∀ x ∈ d, x.hasShape [W3.shape.1, W3.shape.2]) ∧
      (∀ (x : Nd Int) (g : Nat),
        ∀ v ∈ (wcvgCall (wPreprocess W3.shape) W3.n_views x g).1,
          v.hasShape [W3.shape.1, W3.shape.2]) :=
  wavelet_rasterize_before_augment data3 (fun _ => [2]) [1] kw3 W3 rfl rfl

/-! ### Claim C1 -/

/-- C1 amended: the signal-domain generator produces exactly `n_views`
views, the `k`-th obtained by applying exactly the `k`-th configured
transform (alone, at some RNG state) to the unmodified source; the
scalogram generator instead produces `n_views` views each obtained by
applying the full composed pipeline of all configured image transforms
(crop, invert, horizontal flip, vertical flip, composed in order) to the
unmodified source. -/
theorem view_generator_single_vs_composed (ts : List SigTransform) (n : Nat)
    (x : Nd Int) (g : Nat) (hn : n ≤ ts.length) (sh : Nat × Nat) :
    (∃ vs g', ContrastiveViewGenerator.call ⟨ts, n⟩ x g = some (vs, g') ∧
      vs.length = n ∧
      ∀ k, k < n → ∃ (g0 : Nat) (f : SigTransform), ts[k]? = some f ∧
        vs[k]? = some (f g0 x).1) ∧
    ((wcvgCall (wPreprocess sh) n x g).1.length = n ∧
      ∀ k, k < n → ∃ g0, (wcvgCall (wPreprocess sh) n x g).1[k]? =
        some ((composeT (wPreprocessList sh)) g0 x).1) := by
  constructor
  · obtain ⟨vs, g', hcall, hlen, hview⟩ := cvgCallAux_spec ts x (List.range n)
      (fun i hi => lt_of_lt_of_le (List.mem_range.mp hi) hn) g
    refine ⟨vs, g', hcall, by simpa using hlen, ?_⟩
    intro k hk
    exact hview k k (List.getElem?_range hk)
  · exact ⟨wcvgCall_length _ n x g, fun k hk => wcvgCall_views _ n x g k hk⟩

/-- A concrete identity transform (it ignores and does not advance the RNG
state), used by witnesses. -/
def idTransform : SigTransform := fun g x => (x, g)

theorem view_generator_single_vs_composed_witness :
    ∃ vs g', ContrastiveViewGenerator.call ⟨[idTransform, idTransform], 2⟩
        (Nd.item 3) 0 = some (vs, g') ∧ vs.length = 2 :=
  have h := (view_generator_single_vs_composed [idTransform, idTransform] 2
    (Nd.item 3) 0 (by simp) (1, 1)).1
  ⟨h.choose, h.choose_spec.choose, h.choose_spec.choose_spec.1,
   h.choose_spec.choose_spec.2.1⟩

/-- The concrete 1×1 source image for the C1 counterexample. -/
def xC1 : Nd Int := .node [.node [.item 7]]

/-- On a 1×1 image the modelled `RandomResizedCrop` always degenerates to
the zero image, whatever the RNG state. -/
theorem rrc_on_unit_image (g1 : Nat) :
    (randomResizedCropT (1, 1) g1 xC1).1 = Nd.node [Nd.node [Nd.item 0]] := by
  simp [randomResizedCropT, xC1, Nd.dim0, Nd.dim1, Nat.mod_one]
  rfl

/-- C1 counterexample: in the scalogram generator the first view of the
source `[[7]]` under seed 0 is `[[255]]`, which is not the output of any
single configured transform at any RNG state — it arises only by composing
the crop with the invert transform.  This refutes the claim that no view is
the result of composing two or more configured transforms, for the
time-frequency generator. -/
theorem view_generator_composition_counterexample :
    ¬ ∀ k, k < 2 → ∃ t ∈ wPreprocessList (1, 1), ∃ g0 : Nat,
        ((wcvgCall (wPreprocess (1, 1)) 2 xC1 0).1)[k]? = some (t g0 xC1).1 := by
  intro hcl
  obtain ⟨t, ht, g0, heq⟩ := hcl 0 (by omega)
  have hv : ((wcvgCall (wPreprocess (1, 1)) 2 xC1 0).1)[0]? =
      some (Nd.node [Nd.node [Nd.item 255]]) := by rfl
  rw [hv] at heq
  simp only [wPreprocessList, List.mem_cons, List.not_mem_nil, or_false] at ht
  rcases ht with h | h | h | h
  · subst h
    rw [rrc_on_unit_image g0] at heq
    simp at heq
  · subst h
    by_cases h4 : g0 % 4 = 0 <;>
      simp [randomInvertT, h4, xC1, ndMap, ndMapList] at heq
  · subst h
    by_cases h10 : g0 % 10 < 3 <;>
      simp [randomHorizontalFlipT, h10, hflipMat, xC1] at heq
  · subst h
    by_cases h10 : g0 % 10 < 3 <;>
      simp [randomVerticalFlipT, h10, vflipMat, xC1] at heq

/-! ### Claim C5 -/

/-- The concrete 1-channel 2-sample window for the C5 counterexample. -/
def xC5 : Nd Int := .node [.node [.item 1, .item 2]]

/-- C5 counterexample: with a fixed seed (the global RNG state seeded to 0)
and `n_views == len(transforms) == 1`, two separate invocations of the
signal generator on the same window produce different view lists — the
first invocation advances the hidden global RNG state, so the second
invocation's random block permutation differs.  The output is a function of
the hidden global RNG state, not of the seed and window alone. -/
theorem view_generator_two_invocations_counterexample :
    ContrastiveViewGenerator.call ⟨[PermutationTransform 2], 1⟩ xC5 0 =
      some ([Nd.node [Nd.node [Nd.item 1, Nd.item 2]]], lcg 0) ∧
    ContrastiveViewGenerator.call ⟨[PermutationTransform 2], 1⟩ xC5 (lcg 0) =
      some ([Nd.node [Nd.node [Nd.item 2, Nd.item 1]]], lcg (lcg 0)) ∧
    (Nd.node [Nd.node [Nd.item 1, Nd.item 2]] : Nd Int) ≠
      Nd.node [Nd.node [Nd.item 2, Nd.item 1]] := by
  refine ⟨rfl, rfl, by simp⟩

/-- C5 amended: the generator's output view list is a pure function of the
source window and of the global RNG state at invocation time.  Two separate
invocations produce bit-identical view lists when none of the configured
transforms depends on the RNG state (and, trivially, whenever the global
RNG state is restored to the same seed before each invocation); in general
each invocation advances the hidden global RNG state, so two successive
invocations under a single seeding need not agree. -/
theorem view_generator_state_dependence (ts : List SigTransform) (n : Nat)
    (x : Nd Int)
    (hind : ∀ t ∈ ts, ∀ (a b : Nat) (y : Nd Int), (t a y).1 = (t b y).1) :
    ∀ g1 g2 : Nat,
      (ContrastiveViewGenerator.call ⟨ts, n⟩ x g1).map (fun p => p.1) =
      (ContrastiveViewGenerator.call ⟨ts, n⟩ x g2).map (fun p => p.1) := by
  suffices haux : ∀ (is : List Nat) (g1 g2 : Nat),
      (cvgCallAux ts x is g1).map (fun p => p.1) =
      (cvgCallAux ts x is g2).map (fun p => p.1) from
    fun g1 g2 => haux (List.range n) g1 g2
  intro is
  induction is with
  | nil => intro g1 g2; rfl
  | cons i rest ih =>
    intro g1 g2
    cases hf : ts[i]? with
    | none => simp [cvgCallAux, hf]
    | some f =>
      have hmem : f ∈ ts := by
        have := List.getElem?_eq_some_iff.mp hf
        obtain ⟨hlt, hget⟩ := this
        exact hget ▸ List.getElem_mem hlt
      have hval : (f g1 x).1 = (f g2 x).1 := hind f hmem g1 g2 x
      have hrec := ih (f g1 x).2 (f g2 x).2
      simp only [cvgCallAux, hf]
      cases hr1 : cvgCallAux ts x rest (f g1 x).2 with
      | none =>
        cases hr2 : cvgCallAux ts x rest (f g2 x).2 with
        | none => rfl
        | some p2 => rw [hr1, hr2] at hrec; simp at hrec
      | some p1 =>
        cases hr2 : cvgCallAux ts x rest (f g2 x).2 with
        | none => rw [hr1, hr2] at hrec; simp at hrec
        | some p2 =>
          rw [hr1, hr2] at hrec
          simp at hrec
          obtain ⟨v1, gg1⟩ := p1
          obtain ⟨v2, gg2⟩ := p2
          simp at hrec
          simp [hval, hrec]

theorem view_generator_state_dependence_witness :
    (ContrastiveViewGenerator.call ⟨[idTransform], 1⟩ (Nd.item 4) 0).map
        (fun p => p.1) =
      (ContrastiveViewGenerator.call ⟨[idTransform], 1⟩ (Nd.item 4) 12345).map
        (fun p => p.1) :=
  view_generator_state_dependence [idTransform] 1 (Nd.item 4)
    (by
      intro t ht a b y
      simp at ht
      subst ht
      rfl) 0 12345

/-! ### Claim C4 -/

theorem samplePairLoop_spec (S : SignalSampler) (L : Nat)
    (t1 t2 : SigTransform) (hT : S.cfg.transforms = [t1, t2])
    (hn : S.cfg.n_views = 2) (hne : S.data ≠ [])
    (hrec : ∀ r ∈ S.data, r ≠ [])
    (hsh : ∀ r ∈ S.data, ∀ it ∈ r, it.1.hasShape [S.cfg.n_channels, L])
    (hpre : ∀ t ∈ S.cfg.transforms, ∀ (g : Nat) (x : Nd Int),
      x.hasShape [S.cfg.n_channels, L] →
      (t g x).1.hasShape [S.cfg.n_channels, L]) :
    ∀ (b g : Nat), ∃ as ss g', samplePairLoop S b g = some (as, ss, g') ∧
      as.length = b ∧ ss.length = b ∧
      (∀ a ∈ as, a.hasShape [1, S.cfg.n_channels, L]) ∧
      (∀ a ∈ ss, a.hasShape [1, S.cfg.n_channels, L]) := by
  intro b
  induction b with
  | zero => exact fun g => ⟨[], [], g, rfl, rfl, rfl, by simp, by simp⟩
  | succ b ih =>
    intro g
    have hlen : 0 < S.data.length := List.length_pos.mpr hne
    have hri : g % S.data.length < S.data.length := Nat.mod_lt _ hlen
    have hwin : S.data[(g % S.data.length)]? =
        some (S.data.get ⟨g % S.data.length, hri⟩) :=
      List.getElem?_eq_getElem hri
    have hwmem : S.data.get ⟨g % S.data.length, hri⟩ ∈ S.data :=
      List.get_mem _ _ hri
    have hwlen : 0 < (S.data.get ⟨g % S.data.length, hri⟩).length :=
      List.length_pos.mpr (hrec _ hwmem)
    have hwi : lcg g % (S.data.get ⟨g % S.data.length, hri⟩).length <
        (S.data.get ⟨g % S.data.length, hri⟩).length := Nat.mod_lt _ hwlen
    have hitem : (S.data.get ⟨g % S.data.length, hri⟩)[(lcg g %
        (S.data.get ⟨g % S.data.length, hri⟩).length)]? =
        some ((S.data.get ⟨g % S.data.length, hri⟩).get ⟨_, hwi⟩) :=
      List.getElem?_eq_getElem hwi
    have hitemmem : (S.data.get ⟨g % S.data.length, hri⟩).get ⟨_, hwi⟩ ∈
        S.data.get ⟨g % S.data.length, hri⟩ := List.get_mem _ _ hwi
    have hxsh : ((S.data.get ⟨g % S.data.length, hri⟩).get ⟨_, hwi⟩).1.hasShape
        [S.cfg.n_channels, L] := hsh _ hwmem _ hitemmem
    have ht1 : t1 ∈ S.cfg.transforms := by rw [hT]; simp
    have ht2 : t2 ∈ S.cfg.transforms := by rw [hT]; simp
    have hv1 := hpre t1 ht1 (lcg (lcg g)) _ hxsh
    have hv2 := hpre t2 ht2
      ((t1 (lcg (lcg g)) ((S.data.get ⟨g % S.data.length, hri⟩).get ⟨_, hwi⟩).1).2)
      _ hxsh
    obtain ⟨as, ss, g', hloop, hlena, hlens, hsha, hshs⟩ :=
      ih (t2 (t1 (lcg (lcg g))
        ((S.data.get ⟨g % S.data.length, hri⟩).get ⟨_, hwi⟩).1).2
        ((S.data.get ⟨g % S.data.length, hri⟩).get ⟨_, hwi⟩).1).2
    refine ⟨Nd.unsqueeze0 (t1 (lcg (lcg g))
        ((S.data.get ⟨g % S.data.length, hri⟩).get ⟨_, hwi⟩).1).1 :: as,
      Nd.unsqueeze0 (t2 (t1 (lcg (lcg g))
        ((S.data.get ⟨g % S.data.length, hri⟩).get ⟨_, hwi⟩).1).2
        ((S.data.get ⟨g % S.data.length, hri⟩).get ⟨_, hwi⟩).1).1 :: ss,
      g', ?_, by simp [hlena], by simp [hlens], ?_, ?_⟩
    · simp only [samplePairLoop, sample_recording, sample_window]
      rw [hwin]
      simp only []
      rw [hitem]
      simp only []
      rw [hT, hn, cvg_call_two]
      simp only []
      rw [hloop]
    · intro a ha
      rcases List.mem_cons.mp ha with h | h
      · subst h; exact hasShape_unsqueeze0 _ _ hv1
      · exact hsha a h
    · intro a ha
      rcases List.mem_cons.mp ha with h | h
      · subst h; exact hasShape_unsqueeze0 _ _ hv2
      · exact hshs a h

/-- C4: every `_sample_pair` call returns exactly two stacked tensors
(anchors, samples) — no label tensor — each of shape
`(batch_size, 1, n_channels, window_length)`: iterate `batch_size` times,
each view `unsqueeze(0)`-ed, `torch.cat` stacks the batch leading dimension
and the final `unsqueeze(1)` inserts the singleton view-slot dimension. -/
theorem sample_pair_batch_shape (S : SignalSampler) (L : Nat)
    (t1 t2 : SigTransform) (hT : S.cfg.transforms = [t1, t2])
    (hn : S.cfg.n_views = 2) (hB : 0 < S.batch_size) (hne : S.data ≠ [])
    (hrec : ∀ r ∈ S.data, r ≠ [])
    (hsh : ∀ r ∈ S.data, ∀ it ∈ r, it.1.hasShape [S.cfg.n_channels, L])
    (hpre : ∀ t ∈ S.cfg.transforms, ∀ (g : Nat) (x : Nd Int),
      x.hasShape [S.cfg.n_channels, L] →
      (t g x).1.hasShape [S.cfg.n_channels, L]) (g : Nat) :
    ∃ A Sm g', samplePair S g = some (A, Sm, g') ∧
      A.hasShape [S.batch_size, 1, S.cfg.n_channels, L] ∧
      Sm.hasShape [S.batch_size, 1, S.cfg.n_channels, L] := by
  obtain ⟨as, ss, g', hloop, hla, hls, hsa, hss⟩ :=
    samplePairLoop_spec S L t1 t2 hT hn hne hrec hsh hpre S.batch_size g
  have hane : as ≠ [] := by
    intro h
    rw [h] at hla
    simp at hla
    omega
  have hsne : ss ≠ [] := by
    intro h
    rw [h] at hls
    simp at hls
    omega
  obtain ⟨cA, hcA, hcAsh⟩ := cat0_shape as [S.cfg.n_channels, L] hane hsa
  obtain ⟨cS, hcS, hcSsh⟩ := cat0_shape ss [S.cfg.n_channels, L] hsne hss
  obtain ⟨A, hA, hAsh⟩ := unsqueeze1_shape cA as.length [S.cfg.n_channels, L] hcAsh
  obtain ⟨Sm, hSm, hSmsh⟩ := unsqueeze1_shape cS ss.length [S.cfg.n_channels, L] hcSsh
  refine ⟨A, Sm, g', ?_, by rw [← hla]; exact hAsh, by rw [← hls]; exact hSmsh⟩
  unfold samplePair
  rw [hloop]
  simp only []
  rw [hcA, hcS]
  simp only [Option.some_bind]
  rw [hA, hSm]

/-- A concrete one-recording, one-window signal sampler with two identity
transforms and batch size 2. -/
def S4 : SignalSampler :=
  { data := [[(mkMat 1 2 (fun _ _ => 3), 0, 0)]], labels := [[1]],
    batch_size := 2, cfg := ⟨1, 2, 5, 10, [idTransform, idTransform]⟩ }

theorem sample_pair_batch_shape_witness :
    ∃ A Sm g', samplePair S4 0 = some (A, Sm, g') ∧
      A.hasShape [2, 1, 1, 2] ∧ Sm.hasShape [2, 1, 1, 2] :=
  sample_pair_batch_shape S4 2 idTransform idTransform rfl rfl (by decide)
    (by simp [S4])
    (by
      intro r hr
      simp [S4] at hr
      subst hr
      simp)
    (by
      intro r hr it hit
      simp [S4] at hr
      subst hr
      simp at hit
      rw [hit]
      exact mkMat_shape 1 2 _)
    (by
      intro t ht gg x h
      simp [S4] at ht
      subst ht
      exact h)
    0
